import Mathlib

/-!
# Tracearr: verification of the session/rule/violation engine specification

Shallow embedding of the Tracearr server code (TypeScript) in Lean 4.

* Pure functions present in the repository (`isNewerVersion`, the prepared
  statements of `apps/server/src/db/prepared.ts`, the `/plex/connect`
  route of the auth module) are translated directly from the source.
* The core engine (Session Reconciler, Rule Engine, Trust Score
  Calculator, Violation Deduplicator) is not part of the source tree we
  were given; those components are modelled from the specification text
  (each such definition carries a `Modelled from the spec:` doc comment).

Machine integers of the source are modelled as `Int`/`Nat` (the columns
involved are `bigint` after migration 0022, and no arithmetic here
overflows 64 bits in the scenarios considered).
-/

namespace Tracearr

/-! ## Version checking (`versionCheckQueue.ts`, `version routes`) -/

/-- JavaScript `parseInt(s, 10)`: skip leading whitespace, read an optional
sign, then the longest prefix of decimal digits; `none` models `NaN`. -/
def jsParseInt (s : String) : Option Int :=
  let cs := s.data.dropWhile (fun c => c == ' ' || c == '\t' || c == '\n' || c == '\r')
  let readDigits : List Char → Option Nat := fun l =>
    let ds := l.takeWhile (·.isDigit)
    if ds.isEmpty then none
    else some (ds.foldl (fun a c => a * 10 + (c.toNat - 48)) 0)
  match cs with
  | '-' :: rest => (readDigits rest).map (fun n => -(n : Int))
  | '+' :: rest => (readDigits rest).map (fun n => (n : Int))
  | _ => (readDigits cs).map (fun n => (n : Int))

/-- One component of a version string: `parseInt(n, 10) || 0` — `NaN`
becomes `0` (and `0`/`-0` are already `0`). -/
def versionComponent (s : String) : Int :=
  (jsParseInt s).getD 0

/-- The prefix strip `v.replace(/^v/, '')`: drop a single leading lowercase `v`. -/
def stripLeadingV (s : String) : String :=
  if s.startsWith "v" then s.drop 1 else s

/-- The `parseVersion` closure inside `isNewerVersion`:
`v.replace(/^v/, '').split('.').map(n => parseInt(n, 10) || 0)`, then
`[parts[0] ?? 0, parts[1] ?? 0, parts[2] ?? 0]`. -/
def parseVersion (v : String) : Int × Int × Int :=
  let parts := ((stripLeadingV v).splitOn ".").map versionComponent
  (parts.getD 0 0, parts.getD 1 0, parts.getD 2 0)

/-- The comparison chain of `isNewerVersion` on parsed triples. -/
def tripleGt : Int × Int × Int → Int × Int × Int → Bool
  | (lM, lm, lp), (cM, cm, cp) =>
    if lM > cM then true
    else if lM < cM then false
    else if lm > cm then true
    else if lm < cm then false
    else if lp > cp then true
    else false

/-- The function `isNewerVersion(latest, current)` from `versionCheckQueue.ts`:
returns `true` iff `latest > current` as parsed semver triples. -/
def isNewerVersion (latest current : String) : Bool :=
  tripleGt (parseVersion latest) (parseVersion current)

/-- Cached latest-version record (`LatestVersionData`). -/
structure LatestVersionData where
  version : String
  tag : String
  releaseUrl : String
  publishedAt : String
  checkedAt : String

/-- The `updateAvailable` computation of the `GET /version` route:
`latestData ? isNewerVersion(latestData.version, currentVersion) : false`. -/
def versionRouteUpdateAvailable (latestData : Option LatestVersionData)
    (currentVersion : String) : Bool :=
  match latestData with
  | none => false
  | some d => isNewerVersion d.version currentVersion

/-- Spec-side reading of the claim: the parsed `(major, minor, patch)`
triple of the first argument is lexicographically greater than that of
the second. -/
def specLexGt (a b : Int × Int × Int) : Prop :=
  a.1 > b.1 ∨ (a.1 = b.1 ∧ (a.2.1 > b.2.1 ∨ (a.2.1 = b.2.1 ∧ a.2.2 > b.2.2)))

/-! ## Prepared statements over session rows (`db/prepared.ts`) -/

/-- Projection of a `sessions` row onto the columns the prepared
statements use. `id` is the primary key; `referenceId` is nullable. -/
structure DbSessionRow where
  id : String
  referenceId : Option String
  startedAt : Int
  platform : String
  deriving DecidableEq

/-- The value of `COALESCE(reference_id, id)` for one row. -/
def coalesceRef (r : DbSessionRow) : String :=
  r.referenceId.getD r.id

/-- The prepared query `playsCountSince`: `count(DISTINCT COALESCE(reference_id, id))`
over rows with `started_at >= since`. -/
def playsCountSince (rows : List DbSessionRow) (since : Int) : Nat :=
  (((rows.filter (fun r => since ≤ r.startedAt)).map coalesceRef).dedup).length

/-- The prepared query `playsByPlatformSince` for one platform group:
`count(DISTINCT COALESCE(reference_id, id))` over rows with
`started_at >= since` grouped by `platform`. -/
def playsByPlatformSince (rows : List DbSessionRow) (since : Int)
    (platform : String) : Nat :=
  (((rows.filter (fun r => since ≤ r.startedAt && r.platform == platform)).map
      coalesceRef).dedup).length

/-- Spec-side reading of the play count: distinct reference ids among
rows that have one, plus one play per row that has none. -/
def specPlaysCount (rows : List DbSessionRow) (since : Int) : Nat :=
  let l := rows.filter (fun r => since ≤ r.startedAt)
  ((l.filterMap (fun r => r.referenceId)).dedup).length
    + (l.filter (fun r => r.referenceId.isNone)).length

/-- Spec-side per-platform play count, same grouping as the claim. -/
def specPlaysByPlatform (rows : List DbSessionRow) (since : Int)
    (platform : String) : Nat :=
  let l := rows.filter (fun r => since ≤ r.startedAt && r.platform == platform)
  ((l.filterMap (fun r => r.referenceId)).dedup).length
    + (l.filter (fun r => r.referenceId.isNone)).length

/-! ## Session Reconciler (spec §4.2)

The Reconciler implementation is not in the source tree we were given
(only its prepared lookup `sessionByServerAndKey` is); it is modelled
from the specification text. -/

/-- Modelled from the spec: a raw session reported by a media-server
backend (§6: `sessionKey, referenceId?, ..., progressMs, isPaused`). -/
structure RawSession where
  sessionKey : String
  referenceId : Option String
  userId : Nat
  progressMs : Int
  isPaused : Bool
  deriving DecidableEq

/-- Modelled from the spec: a `Session` row (§3), restricted to the
fields the Reconciler reads or writes. -/
structure Session where
  id : Nat
  serverId : Nat
  sessionKey : String
  referenceId : Option String
  userId : Nat
  startedAt : Int
  lastSeen : Int
  durationMs : Int
  pausedDurationMs : Int
  progressMs : Int
  isOpen : Bool
  endedAt : Option Int
  deriving DecidableEq

/-- Modelled from the spec: lifecycle events emitted by the Reconciler,
identified by the natural key of the session they concern. -/
inductive Event where
  | started (serverId : Nat) (sessionKey : String)
  | updated (serverId : Nat) (sessionKey : String)
  | stopped (serverId : Nat) (sessionKey : String)
  deriving DecidableEq

/-- Modelled from the spec: engine-owned session store plus an id
counter for freshly created rows. -/
structure EngineState where
  sessions : List Session
  nextId : Nat
  deriving DecidableEq

/-- The predicate behind `sessionByServerAndKey` (`db/prepared.ts`):
an OPEN session matching `(serverId, sessionKey)`. -/
def matchKey (serverId : Nat) (key : String) (s : Session) : Bool :=
  s.isOpen && s.serverId == serverId && s.sessionKey == key

/-- Modelled from the spec (§4.2, match branch): `elapsed = observedAt −
lastSeen`; paused adds elapsed to `pausedDurationMs`, otherwise to
`durationMs`; `lastSeen` and `progressMs` are refreshed. -/
def updateSession (s : Session) (raw : RawSession) (observedAt : Int) : Session :=
  let elapsed := observedAt - s.lastSeen
  { s with
    durationMs := s.durationMs + (if raw.isPaused then 0 else elapsed)
    pausedDurationMs := s.pausedDurationMs + (if raw.isPaused then elapsed else 0)
    lastSeen := observedAt
    progressMs := raw.progressMs }

/-- Modelled from the spec (§4.2, no-match branch): a fresh open row with
`start = observedAt`, `duration = 0`. -/
def newSession (serverId : Nat) (raw : RawSession) (observedAt : Int)
    (id : Nat) : Session :=
  { id := id
    serverId := serverId
    sessionKey := raw.sessionKey
    referenceId := raw.referenceId
    userId := raw.userId
    startedAt := observedAt
    lastSeen := observedAt
    durationMs := 0
    pausedDurationMs := 0
    progressMs := raw.progressMs
    isOpen := true
    endedAt := none }

/-- Modelled from the spec: process one raw session of a poll batch —
match by `(serverId, sessionKey)` against open sessions; update on a
match (emit `updated`), create on no match (emit `started`). -/
def applyRaw (serverId : Nat) (observedAt : Int)
    (acc : EngineState × List Event) (raw : RawSession) :
    EngineState × List Event :=
  let (st, evs) := acc
  if st.sessions.any (matchKey serverId raw.sessionKey) then
    ({ st with
        sessions := st.sessions.map (fun s =>
          if matchKey serverId raw.sessionKey s then updateSession s raw observedAt
          else s) },
      evs ++ [Event.updated serverId raw.sessionKey])
  else
    ({ sessions := st.sessions ++ [newSession serverId raw observedAt st.nextId]
       nextId := st.nextId + 1 },
      evs ++ [Event.started serverId raw.sessionKey])

/-- A previously open session of this server that the new snapshot no
longer reports: it is to be stopped. -/
def vanished (serverId : Nat) (keys : List String) (s : Session) : Bool :=
  s.isOpen && s.serverId == serverId && !(keys.contains s.sessionKey)

/-- Close a vanished session: `endTime = observedAt`. -/
def closeSession (observedAt : Int) (keep : Bool) (s : Session) : Session :=
  if keep then s else { s with isOpen := false, endedAt := some observedAt }

/-- Modelled from the spec (§4.2): one reconciliation pass — fold the raw
snapshot through `applyRaw`, then close every open session of this
server that the snapshot no longer reports (emit `stopped`,
`endTime = observedAt`). -/
def reconcile (st : EngineState) (serverId : Nat) (raws : List RawSession)
    (observedAt : Int) : EngineState × List Event :=
  let folded := raws.foldl (applyRaw serverId observedAt) (st, [])
  let keys := raws.map (·.sessionKey)
  let toClose := folded.1.sessions.filter (vanished serverId keys)
  ({ folded.1 with
      sessions := folded.1.sessions.map (fun s =>
        closeSession observedAt (!vanished serverId keys s) s) },
    folded.2 ++ toClose.map (fun s => Event.stopped s.serverId s.sessionKey))

/-- The empty engine state. -/
def initialState : EngineState := { sessions := [], nextId := 0 }

/-- States reachable by reconciliation passes from the empty store. -/
inductive Reachable : EngineState → Prop where
  | init : Reachable initialState
  | step (st : EngineState) (serverId : Nat) (raws : List RawSession)
      (observedAt : Int) : Reachable st →
      Reachable (reconcile st serverId raws observedAt).1

/-- Two session rows are not both open under the same
`(server id, session key)` pair. -/
def OpenDistinct (a b : Session) : Prop :=
  ¬(a.isOpen = true ∧ b.isOpen = true ∧ a.serverId = b.serverId ∧
    a.sessionKey = b.sessionKey)

instance instDecidableOpenDistinct (a b : Session) : Decidable (OpenDistinct a b) := by
  unfold OpenDistinct; infer_instance

/-- Invariant (§3): at most one open session per `(server id, session
key)` — no two list entries are both open with the same pair. -/
def UniqueOpen (st : EngineState) : Prop :=
  st.sessions.Pairwise OpenDistinct

instance instDecidableUniqueOpen (st : EngineState) : Decidable (UniqueOpen st) := by
  unfold UniqueOpen; infer_instance

/-- The identity triple the open-session invariant speaks about. -/
def keyTriple (s : Session) : Bool × Nat × String :=
  (s.isOpen, s.serverId, s.sessionKey)

/-- The predicate `matchKey` seen on identity triples. -/
def matchTriple (serverId : Nat) (key : String) : Bool × Nat × String → Bool
  | (o, si, ky) => o && si == serverId && ky == key

/-- The predicate `vanished` seen on identity triples. -/
def vanishedTriple (serverId : Nat) (keys : List String) :
    Bool × Nat × String → Bool
  | (o, si, ky) => o && si == serverId && !(keys.contains ky)

/-- The identity triples of a session list, in order. -/
def triplesOf (l : List Session) : List (Bool × Nat × String) :=
  l.map keyTriple

/-! ## Duration accounting helpers (claim C2) -/

/-- One observation of an open session by a poll. -/
structure Poll where
  observedAt : Int
  isPaused : Bool
  progressMs : Int
  deriving DecidableEq

/-- The raw session a poll reports for an already-open session. -/
def pollRaw (s : Session) (p : Poll) : RawSession :=
  { sessionKey := s.sessionKey, referenceId := s.referenceId, userId := s.userId,
    progressMs := p.progressMs, isPaused := p.isPaused }

/-- Folding successive polls of the same open session through the
Reconciler's match branch. -/
def pollSteps (s : Session) (polls : List Poll) : Session :=
  polls.foldl (fun t p => updateSession t (pollRaw t p) p.observedAt) s

/-- Spec-side sum: elapsed wall-clock time over exactly the intervals in
which the raw session was not reported paused (`t0` = previous
`lastSeen`). -/
def unpausedElapsed (t0 : Int) : List Poll → Int
  | [] => 0
  | p :: rest => (if p.isPaused then 0 else p.observedAt - t0)
      + unpausedElapsed p.observedAt rest

/-- Spec-side sum of the paused intervals. -/
def pausedElapsed (t0 : Int) : List Poll → Int
  | [] => 0
  | p :: rest => (if p.isPaused then p.observedAt - t0 else 0)
      + pausedElapsed p.observedAt rest

/-- The `lastSeen` value after a sequence of polls (`t0` when none). -/
def finalSeen (t0 : Int) : List Poll → Int
  | [] => t0
  | p :: rest => finalSeen p.observedAt rest

/-- Poll times never run backwards relative to the session's `lastSeen`. -/
def TimesMono : Int → List Poll → Prop
  | _, [] => True
  | t0, p :: rest => t0 ≤ p.observedAt ∧ TimesMono p.observedAt rest

instance instDecidableTimesMono : ∀ t0 polls, Decidable (TimesMono t0 polls)
  | _, [] => .isTrue trivial
  | t0, p :: rest =>
    match inferInstanceAs (Decidable (t0 ≤ p.observedAt)),
        instDecidableTimesMono p.observedAt rest with
    | .isTrue h1, .isTrue h2 => .isTrue ⟨h1, h2⟩
    | .isFalse h1, _ => .isFalse (fun h => h1 h.1)
    | _, .isFalse h2 => .isFalse (fun h => h2 h.2)

/-! ## Violation severity, Rule Engine candidates (spec §4.3)

The Rule Engine implementation is not in the source tree we were given;
it is modelled from the specification text. -/

/-- Violation severity (`low`/`warning`/`high`, §3). -/
inductive Severity where
  | low
  | warning
  | high
  deriving DecidableEq

/-- A play key: either a reference id (grouping raw sessions of one
logical play) or, for a session without one, its `(server, key)` pair. -/
abbrev PlayKey := String ⊕ (Nat × String)

/-- Rule-specific dedup fingerprint: for `concurrent_streams` the set of
play keys contributing to the overage, for `impossible_travel` the pair
of session identities. -/
abbrev Fingerprint := List PlayKey

/-- Modelled from the spec: a violation candidate produced by a rule. -/
structure Candidate where
  ruleId : Nat
  serverUserId : Nat
  fingerprint : Fingerprint
  severity : Severity
  detail : String
  deriving DecidableEq

/-- The play key of a session: its reference id when it has one,
otherwise its own `(server id, session key)` identity (§4.2
reference-id grouping). -/
def playKey (s : Session) : PlayKey :=
  match s.referenceId with
  | some r => Sum.inl r
  | none => Sum.inr (s.serverId, s.sessionKey)

/-- Currently-open sessions of one user, across all servers. -/
def openSessionsOf (sessions : List Session) (userId : Nat) : List Session :=
  sessions.filter (fun s => s.isOpen && s.userId == userId)

/-- Modelled from the spec: the distinct play keys of a user's open
sessions — sessions grouped under the same reference id count once. -/
def userPlayKeys (sessions : List Session) (userId : Nat) : Fingerprint :=
  ((openSessionsOf sessions userId).map playKey).dedup

/-- Modelled from the spec (§4.3 `concurrent_streams`): the number of
distinct currently-open sessions of the user not grouped under the same
reference id. -/
def countConcurrent (sessions : List Session) (userId : Nat) : Nat :=
  (userPlayKeys sessions userId).length

/-- Severity scaling of `concurrent_streams`: one over the limit is
`warning`, two or more over is `high`. -/
def concurrentSeverity (count maxStreams : Nat) : Severity :=
  if count ≥ maxStreams + 2 then .high else .warning

/-- Does the rule react to this event (`started`/`updated`)? -/
def isStartOrUpdate : Event → Bool
  | .started _ _ => true
  | .updated _ _ => true
  | .stopped _ _ => false

/-- Modelled from the spec (§4.3): `concurrent_streams` evaluation for
one lifecycle event of `userId`: emit one candidate exactly when the
non-grouped open-session count exceeds the configured maximum; the
fingerprint is the set of contributing play keys. -/
def concurrentStreamsRule (ruleId maxStreams : Nat)
    (sessions : List Session) (ev : Event) (userId : Nat) : List Candidate :=
  if isStartOrUpdate ev then
    let n := countConcurrent sessions userId
    if n > maxStreams then
      [{ ruleId := ruleId
         serverUserId := userId
         fingerprint := userPlayKeys sessions userId
         severity := concurrentSeverity n maxStreams
         detail := "concurrent_streams" }]
    else []
  else []

/-- Modelled from the spec (§4.3): the engine evaluates the rule on every
event of the reconciliation batch and merges the candidates (identical
candidates collapse to one). -/
def evaluateConcurrentBatch (ruleId maxStreams : Nat)
    (sessions : List Session) (events : List (Event × Nat)) : List Candidate :=
  ((events.map (fun e => concurrentStreamsRule ruleId maxStreams sessions e.1 e.2)).flatten).dedup

/-- A resolved geographic location (degrees as rationals; the
floating-point trigonometry of the great-circle formula is abstracted
behind the `dist` parameter below). -/
structure GeoPoint where
  lat : ℚ
  lon : ℚ
  deriving DecidableEq

/-- Modelled from the spec (§4.3 `impossible_travel`): on `started`,
compare the new session's geo + timestamp (ms) with the user's preceding
session's; required average speed is great-circle distance over elapsed
time; emit a `high` candidate when it exceeds the threshold, none when
the elapsed time is under the resolution floor or either geo resolution
is unavailable. -/
def impossibleTravelRule (ruleId : Nat) (dist : GeoPoint → GeoPoint → ℚ)
    (thresholdKmh minElapsedMs : ℚ) (userId : Nat)
    (prevGeo : Option GeoPoint) (prevTs : ℚ)
    (curGeo : Option GeoPoint) (curTs : ℚ)
    (fp : Fingerprint) : List Candidate :=
  match prevGeo, curGeo with
  | some g1, some g2 =>
    let elapsedMs := curTs - prevTs
    if elapsedMs < minElapsedMs then []
    else
      let speedKmh := dist g1 g2 / (elapsedMs / 3600000)
      if thresholdKmh < speedKmh then
        [{ ruleId := ruleId
           serverUserId := userId
           fingerprint := fp
           severity := .high
           detail := "impossible_travel" }]
      else []
  | _, _ => []

/-! ## Violation Deduplicator/Store (spec §4.4)

Modelled from the spec; not in the source tree we were given. -/

/-- Dedup key: `(rule id, server user id, fingerprint)` (§3
`CooldownEntry`). -/
structure DedupKey where
  ruleId : Nat
  serverUserId : Nat
  fingerprint : Fingerprint
  deriving DecidableEq

/-- A cooldown entry: dedup key plus expiry timestamp. -/
structure CooldownEntry where
  key : DedupKey
  expiresAt : Int
  deriving DecidableEq

/-- A persisted violation row (append-only; §3). -/
structure Violation where
  ruleId : Nat
  serverUserId : Nat
  severity : Severity
  detail : String
  createdAt : Int
  deriving DecidableEq

/-- Deduplicator-owned state: cooldown entries and the violation store. -/
structure DedupState where
  cooldowns : List CooldownEntry
  violations : List Violation
  deriving DecidableEq

/-- The dedup key of a candidate. -/
def keyOf (c : Candidate) : DedupKey :=
  { ruleId := c.ruleId, serverUserId := c.serverUserId, fingerprint := c.fingerprint }

/-- Is there an unexpired cooldown entry for this key at `now`? -/
def hasUnexpired (st : DedupState) (k : DedupKey) (now : Int) : Bool :=
  st.cooldowns.any (fun e => e.key == k && now < e.expiresAt)

/-- Modelled from the spec (§4.4): if an unexpired cooldown entry exists
for the candidate's key, drop it (no violation row, no notification);
otherwise persist the violation, insert/refresh the cooldown entry with
expiry `now + cooldownMs`, and hand the violation onward (the returned
`Option Violation` is what gets notified). This stage is the sole writer
of violation rows. -/
def processCandidate (st : DedupState) (c : Candidate) (now cooldownMs : Int) :
    DedupState × Option Violation :=
  if hasUnexpired st (keyOf c) now then (st, none)
  else
    let v : Violation :=
      { ruleId := c.ruleId, serverUserId := c.serverUserId,
        severity := c.severity, detail := c.detail, createdAt := now }
    ({ cooldowns := (st.cooldowns.filter (fun e => e.key != keyOf c)) ++
        [{ key := keyOf c, expiresAt := now + cooldownMs }]
       violations := st.violations ++ [v] },
      some v)

/-! ## Trust Score Calculator (spec §4.5)

Modelled from the spec; not in the source tree we were given. -/

/-- Penalty per accepted violation severity: low 2, warning 5, high 15. -/
def penalty : Severity → Int
  | .low => 2
  | .warning => 5
  | .high => 15

/-- Clamp a score into the bounded range `[0, 100]`. -/
def clampScore (x : Int) : Int := max 0 (min 100 x)

/-- Modelled from the spec (§4.5): an accepted violation subtracts
`penalty(severity)`, clamped to `[0, 100]`. -/
def applyViolationScore (score : Int) (sev : Severity) : Int :=
  clampScore (score - penalty sev)

/-- Modelled from the spec (§4.5): a decay tick moves the score toward
the baseline 100 by the recovery step, never overshooting. -/
def decayTick (recoveryStep score : Int) : Int :=
  min 100 (score + recoveryStep)

/-- One operation on a user's trust score. -/
inductive TrustOp where
  | violation (sev : Severity)
  | decay
  deriving DecidableEq

/-- Apply one trust-score operation. -/
def applyTrustOp (recoveryStep : Int) (score : Int) : TrustOp → Int
  | .violation sev => applyViolationScore score sev
  | .decay => decayTick recoveryStep score

/-- Apply a finite sequence of trust-score operations in order. -/
def runTrustOps (recoveryStep score : Int) (ops : List TrustOp) : Int :=
  ops.foldl (applyTrustOp recoveryStep) score

/-! ## Plex connect route (`routes/auth/plex.ts`) -/

/-- The record stored in Redis under the temp token during the Plex
OAuth server-selection step (`check-pin` writes it, `connect` reads
it). The JSON round-trip is modelled as the record itself. -/
structure PlexTempData where
  plexAccountId : String
  plexUsername : String
  plexEmail : String
  plexThumb : String
  plexToken : String
  isFirstUser : Bool
  deriving DecidableEq

/-- A `servers` row, restricted to the columns the route touches. -/
structure ServerRow where
  id : Nat
  name : String
  stype : String
  url : String
  token : String
  deriving DecidableEq

/-- A `users` row, restricted to the columns the route touches. -/
structure UserRow where
  id : Nat
  serverId : Option Nat
  username : String
  email : String
  thumbUrl : String
  plexAccountId : String
  isOwner : Bool
  deriving DecidableEq

/-- Server-side state the `/plex/connect` handler reads and writes:
the Redis keyspace of temp tokens and the two mutated tables. -/
structure ApiState where
  redis : List (String × PlexTempData)
  servers : List ServerRow
  users : List UserRow
  deriving DecidableEq

/-- The constant `PLEX_TEMP_TOKEN_PREFIX` of `routes/auth/utils.ts`. -/
def PLEX_TEMP_TOKEN_PREFIX : String := "tracearr:plex_temp:"

/-- Lookup `redis.get`. -/
def redisGet (redis : List (String × PlexTempData)) (k : String) :
    Option PlexTempData :=
  (redis.find? (fun e => e.1 == k)).map (·.2)

/-- Deletion `redis.del`. -/
def redisDel (redis : List (String × PlexTempData)) (k : String) :
    List (String × PlexTempData) :=
  redis.filter (fun e => e.1 != k)

/-- Responses of the `/plex/connect` handler. -/
inductive ConnectResult where
  | unauthorized
  | forbidden
  | internalError
  | tokens (userId : Nat) (username : String) (isOwner : Bool)
  deriving DecidableEq

/-- The handler of `POST /plex/connect` (`routes/auth/plex.ts`): look the temp token up
in Redis (absent → `unauthorized`, nothing touched); delete it
(one-time use) before anything else; verify server admin
(`none` models a thrown error → `internalServerError`, `some false` →
`forbidden`); then create or update the server row matched by
`(url, type = 'plex')`, insert the user row, and issue tokens.
`verifyServerAdmin`, `encrypt` and the fresh row ids stand in for the
Plex client, the crypto module and the database id generator. -/
def plexConnect (st : ApiState) (tempToken serverUri serverName : String)
    (verifyServerAdmin : String → String → Option Bool)
    (encrypt : String → String) (freshServerId freshUserId : Nat) :
    ConnectResult × ApiState :=
  match redisGet st.redis (PLEX_TEMP_TOKEN_PREFIX ++ tempToken) with
  | none => (ConnectResult.unauthorized, st)
  | some stored =>
    let st1 : ApiState :=
      { st with redis := redisDel st.redis (PLEX_TEMP_TOKEN_PREFIX ++ tempToken) }
    match verifyServerAdmin stored.plexToken serverUri with
    | none => (ConnectResult.internalError, st1)
    | some false => (ConnectResult.forbidden, st1)
    | some true =>
      let st2 : ApiState × Nat :=
        match st1.servers.find? (fun s => s.url == serverUri && s.stype == "plex") with
        | none =>
          ({ st1 with servers := st1.servers ++
              [{ id := freshServerId, name := serverName, stype := "plex",
                 url := serverUri, token := encrypt stored.plexToken }] },
            freshServerId)
        | some s =>
          ({ st1 with servers := st1.servers.map (fun t =>
              if t.id == s.id then { t with token := encrypt stored.plexToken }
              else t) },
            s.id)
      let newUser : UserRow :=
        { id := freshUserId, serverId := some st2.2,
          username := stored.plexUsername, email := stored.plexEmail,
          thumbUrl := stored.plexThumb, plexAccountId := stored.plexAccountId,
          isOwner := stored.isFirstUser }
      (ConnectResult.tokens freshUserId stored.plexUsername stored.isFirstUser,
        { st2.1 with users := st2.1.users ++ [newUser] })

/-! ## Concrete fixtures used by the witness theorems -/

/-- A raw session `"S1"` of user 7, playing. -/
def exRawS1 : RawSession :=
  { sessionKey := "S1", referenceId := none, userId := 7,
    progressMs := 1000, isPaused := false }

/-- A raw session `"S2"` of user 7, paused. -/
def exRawS2 : RawSession :=
  { sessionKey := "S2", referenceId := some "ref-a", userId := 7,
    progressMs := 2000, isPaused := true }

/-- An open session row as the Reconciler would hold it. -/
def exSession : Session :=
  { id := 0, serverId := 1, sessionKey := "S1", referenceId := none,
    userId := 7, startedAt := 0, lastSeen := 0, durationMs := 0,
    pausedDurationMs := 0, progressMs := 0, isOpen := true, endedAt := none }

/-- Three successive polls: 15 s playing, 15 s playing, 15 s paused. -/
def exPolls : List Poll :=
  [{ observedAt := 15000, isPaused := false, progressMs := 15000 },
   { observedAt := 30000, isPaused := false, progressMs := 30000 },
   { observedAt := 45000, isPaused := true, progressMs := 30000 }]

/-- A violation candidate with a fixed fingerprint. -/
def exCandidate : Candidate :=
  { ruleId := 3, serverUserId := 7, fingerprint := [Sum.inl "ref-a"],
    severity := .high, detail := "impossible_travel" }

/-- Three non-grouped open sessions of user 1 across two servers. -/
def exSessions3 : List Session :=
  [{ exSession with id := 1, serverId := 1, sessionKey := "A", userId := 1 },
   { exSession with id := 2, serverId := 1, sessionKey := "B", userId := 1 },
   { exSession with id := 3, serverId := 2, sessionKey := "C", userId := 1 }]

/-- The lifecycle events of one reconciliation batch over `exSessions3`. -/
def exEvents3 : List (Event × Nat) :=
  [(Event.updated 1 "A", 1), (Event.updated 1 "B", 1), (Event.updated 2 "C", 1)]

/-- A distance oracle whose answer implies 2000 km/h over 5 minutes. -/
def exDist : GeoPoint → GeoPoint → ℚ := fun _ _ => 500 / 3

/-- Session rows for the play-count witness: two rows share a reference
id, one row has none. -/
def exRows : List DbSessionRow :=
  [{ id := "a", referenceId := some "r", startedAt := 5, platform := "web" },
   { id := "b", referenceId := some "r", startedAt := 6, platform := "web" },
   { id := "c", referenceId := none, startedAt := 7, platform := "tv" }]

/-- Stored Plex OAuth data behind a temp token. -/
def exTempData : PlexTempData :=
  { plexAccountId := "acc1", plexUsername := "alice", plexEmail := "a@x",
    plexThumb := "t", plexToken := "ptok", isFirstUser := true }

/-- API state holding one issued temp token and empty tables. -/
def exApiState : ApiState :=
  { redis := [(PLEX_TEMP_TOKEN_PREFIX ++ "tok1", exTempData)],
    servers := [], users := [] }

/-! # Theorems -/

/-! ## Trust score (claim C4) -/

theorem clampScore_bounds (x : Int) : 0 ≤ clampScore x ∧ clampScore x ≤ 100 := by
  unfold clampScore
  omega

theorem applyTrustOp_bounds (recoveryStep sc : Int) (hstep : 0 ≤ recoveryStep)
    (h0 : 0 ≤ sc) (h100 : sc ≤ 100) (op : TrustOp) :
    0 ≤ applyTrustOp recoveryStep sc op ∧ applyTrustOp recoveryStep sc op ≤ 100 := by
  cases op with
  | violation sev =>
    exact clampScore_bounds _
  | decay =>
    simp only [applyTrustOp, decayTick]
    omega

theorem runTrustOps_bounds (recoveryStep : Int) (hstep : 0 ≤ recoveryStep) :
    ∀ (ops : List TrustOp) (sc : Int), 0 ≤ sc → sc ≤ 100 →
      0 ≤ runTrustOps recoveryStep sc ops ∧ runTrustOps recoveryStep sc ops ≤ 100
  | [], sc, h0, h100 => ⟨h0, h100⟩
  | op :: rest, sc, h0, h100 => by
    have hstep' := applyTrustOp_bounds recoveryStep sc hstep h0 h100 op
    have := runTrustOps_bounds recoveryStep hstep rest
      (applyTrustOp recoveryStep sc op) hstep'.1 hstep'.2
    simpa [runTrustOps] using this

/-- C4: starting from a score in `[0, 100]`, any finite sequence of
accepted violations and decay ticks keeps the trust score in `[0, 100]`;
the penalties are 2/5/15 for low/warning/high; a decay tick with a
nonnegative recovery step never lowers the score and never pushes it
above the baseline 100. -/
theorem C4_trust_score_bounds (s0 recoveryStep : Int) (ops : List TrustOp)
    (h0 : 0 ≤ s0) (h100 : s0 ≤ 100) (hstep : 0 ≤ recoveryStep) :
    (0 ≤ runTrustOps recoveryStep s0 ops ∧ runTrustOps recoveryStep s0 ops ≤ 100)
    ∧ (penalty .low = 2 ∧ penalty .warning = 5 ∧ penalty .high = 15)
    ∧ (∀ sc sev, 0 ≤ applyViolationScore sc sev)
    ∧ (∀ sc, sc ≤ 100 → sc ≤ decayTick recoveryStep sc)
    ∧ (∀ sc, decayTick recoveryStep sc ≤ 100) := by
  refine ⟨runTrustOps_bounds recoveryStep hstep ops s0 h0 h100, ⟨rfl, rfl, rfl⟩, ?_, ?_, ?_⟩
  · intro sc sev
    exact (clampScore_bounds _).1
  · intro sc hsc
    unfold decayTick
    omega
  · intro sc
    unfold decayTick
    omega

/-- C4 witness: a run of four high violations then a decay tick from
score 50 stays within the bounds. -/
theorem C4_trust_score_bounds_witness :
    (0 ≤ runTrustOps 1 50 [.violation .high, .violation .high, .violation .high,
        .violation .high, .decay]
      ∧ runTrustOps 1 50 [.violation .high, .violation .high, .violation .high,
          .violation .high, .decay] ≤ 100)
    ∧ (penalty .low = 2 ∧ penalty .warning = 5 ∧ penalty .high = 15)
    ∧ (∀ sc sev, 0 ≤ applyViolationScore sc sev)
    ∧ (∀ sc, sc ≤ 100 → sc ≤ decayTick 1 sc)
    ∧ (∀ sc, decayTick 1 sc ≤ 100) :=
  C4_trust_score_bounds 50 1 _ (by decide) (by decide) (by decide)

/-! ## Version comparison (claim C9) -/

theorem tripleGt_iff_specLexGt (p q : Int × Int × Int) :
    tripleGt p q = true ↔ specLexGt p q := by
  obtain ⟨a1, b1, c1⟩ := p
  obtain ⟨a2, b2, c2⟩ := q
  simp only [tripleGt, specLexGt]
  split_ifs <;> simp_all <;> omega

theorem tripleGt_self (p : Int × Int × Int) : tripleGt p p = false := by
  obtain ⟨a, b, c⟩ := p
  simp [tripleGt]

/-- C9: `isNewerVersion` decides the strict lexicographic order on the
parsed `(major, minor, patch)` triples; it is irreflexive and
asymmetric, and the `GET /version` route therefore reports
`updateAvailable = false` when the cached latest version equals the
running version or when no cached version exists. -/
theorem C9_isNewerVersion_lex :
    (∀ a b, isNewerVersion a b = true ↔ specLexGt (parseVersion a) (parseVersion b))
    ∧ (∀ v, isNewerVersion v v = false)
    ∧ (∀ a b, ¬(isNewerVersion a b = true ∧ isNewerVersion b a = true))
    ∧ (∀ d c, versionRouteUpdateAvailable (some d) c = isNewerVersion d.version c)
    ∧ (∀ d, versionRouteUpdateAvailable (some d) d.version = false)
    ∧ (∀ c, versionRouteUpdateAvailable none c = false) := by
  refine ⟨fun a b => tripleGt_iff_specLexGt _ _, fun v => tripleGt_self _, ?_, fun d c => rfl,
    fun d => by simp only [versionRouteUpdateAvailable, isNewerVersion]; exact tripleGt_self _,
    fun c => rfl⟩
  intro a b ⟨h1, h2⟩
  unfold isNewerVersion at h1 h2
  rw [tripleGt_iff_specLexGt] at h1 h2
  obtain ⟨a1, b1, c1⟩ := parseVersion a
  obtain ⟨a2, b2, c2⟩ := parseVersion b
  simp only [specLexGt] at h1 h2
  omega

/-! ## Duration accounting (claim C2) -/

theorem pollSteps_durationMs : ∀ (polls : List Poll) (s : Session),
    (pollSteps s polls).durationMs = s.durationMs + unpausedElapsed s.lastSeen polls
  | [], s => by simp [pollSteps, unpausedElapsed]
  | p :: rest, s => by
    have ih := pollSteps_durationMs rest (updateSession s (pollRaw s p) p.observedAt)
    simp only [pollSteps, List.foldl_cons] at ih ⊢
    rw [ih]
    simp only [updateSession, unpausedElapsed]
    by_cases hp : p.isPaused <;> simp [pollRaw, hp] <;> omega

theorem pollSteps_pausedDurationMs : ∀ (polls : List Poll) (s : Session),
    (pollSteps s polls).pausedDurationMs
      = s.pausedDurationMs + pausedElapsed s.lastSeen polls
  | [], s => by simp [pollSteps, pausedElapsed]
  | p :: rest, s => by
    have ih := pollSteps_pausedDurationMs rest (updateSession s (pollRaw s p) p.observedAt)
    simp only [pollSteps, List.foldl_cons] at ih ⊢
    rw [ih]
    simp only [updateSession, pausedElapsed]
    by_cases hp : p.isPaused <;> simp [pollRaw, hp] <;> omega

theorem pollSteps_lastSeen : ∀ (polls : List Poll) (s : Session),
    (pollSteps s polls).lastSeen = finalSeen s.lastSeen polls
  | [], s => by simp [pollSteps, finalSeen]
  | p :: rest, s => by
    have ih := pollSteps_lastSeen rest (updateSession s (pollRaw s p) p.observedAt)
    simp only [pollSteps, List.foldl_cons] at ih ⊢
    rw [ih]
    simp [updateSession, finalSeen]

theorem unpausedElapsed_nonneg : ∀ (polls : List Poll) (t0 : Int),
    TimesMono t0 polls → 0 ≤ unpausedElapsed t0 polls
  | [], t0, _ => le_refl 0
  | p :: rest, t0, h => by
    have ih := unpausedElapsed_nonneg rest p.observedAt h.2
    simp only [unpausedElapsed]
    have h1 := h.1
    by_cases hp : p.isPaused <;> simp [hp] <;> omega

theorem pausedElapsed_nonneg : ∀ (polls : List Poll) (t0 : Int),
    TimesMono t0 polls → 0 ≤ pausedElapsed t0 polls
  | [], t0, _ => le_refl 0
  | p :: rest, t0, h => by
    have ih := pausedElapsed_nonneg rest p.observedAt h.2
    simp only [pausedElapsed]
    have h1 := h.1
    by_cases hp : p.isPaused <;> simp [hp] <;> omega

theorem elapsed_split : ∀ (polls : List Poll) (t0 : Int),
    unpausedElapsed t0 polls + pausedElapsed t0 polls = finalSeen t0 polls - t0
  | [], t0 => by simp [unpausedElapsed, pausedElapsed, finalSeen]
  | p :: rest, t0 => by
    have ih := elapsed_split rest p.observedAt
    simp only [unpausedElapsed, pausedElapsed, finalSeen]
    by_cases hp : p.isPaused <;> simp [hp] <;> omega

/-- C2: over `N` successive polls of the same open session with
nondecreasing observation times, the cumulative duration grows by
exactly the elapsed wall-clock time of the non-paused intervals and the
paused duration by exactly that of the paused intervals; the two
increments partition the whole elapsed span (nothing double-counted),
cumulative duration never decreases, and a freshly created session
starts with zero duration and `lastSeen` equal to its creation time, so
nothing before a start boundary is ever counted. -/
theorem C2_duration_accounting (s : Session) (polls : List Poll)
    (h : TimesMono s.lastSeen polls) :
    (pollSteps s polls).durationMs = s.durationMs + unpausedElapsed s.lastSeen polls
    ∧ (pollSteps s polls).pausedDurationMs
        = s.pausedDurationMs + pausedElapsed s.lastSeen polls
    ∧ s.durationMs ≤ (pollSteps s polls).durationMs
    ∧ s.pausedDurationMs ≤ (pollSteps s polls).pausedDurationMs
    ∧ (pollSteps s polls).lastSeen = finalSeen s.lastSeen polls
    ∧ (pollSteps s polls).durationMs + (pollSteps s polls).pausedDurationMs
        = s.durationMs + s.pausedDurationMs
          + ((pollSteps s polls).lastSeen - s.lastSeen)
    ∧ (∀ serverId raw t id, (newSession serverId raw t id).durationMs = 0
        ∧ (newSession serverId raw t id).pausedDurationMs = 0
        ∧ (newSession serverId raw t id).lastSeen = t
        ∧ (newSession serverId raw t id).startedAt = t) := by
  have hd := pollSteps_durationMs polls s
  have hp := pollSteps_pausedDurationMs polls s
  have hl := pollSteps_lastSeen polls s
  have hu := unpausedElapsed_nonneg polls s.lastSeen h
  have hpa := pausedElapsed_nonneg polls s.lastSeen h
  have hs := elapsed_split polls s.lastSeen
  refine ⟨hd, hp, by omega, by omega, hl, by omega, ?_⟩
  intro serverId raw t id
  exact ⟨rfl, rfl, rfl, rfl⟩

/-- C2 witness: the example session polled three times (play, play,
pause) satisfies the accounting equations. -/
theorem C2_duration_accounting_witness :
    (pollSteps exSession exPolls).durationMs
        = exSession.durationMs + unpausedElapsed exSession.lastSeen exPolls
    ∧ (pollSteps exSession exPolls).pausedDurationMs
        = exSession.pausedDurationMs + pausedElapsed exSession.lastSeen exPolls
    ∧ exSession.durationMs ≤ (pollSteps exSession exPolls).durationMs
    ∧ exSession.pausedDurationMs ≤ (pollSteps exSession exPolls).pausedDurationMs
    ∧ (pollSteps exSession exPolls).lastSeen = finalSeen exSession.lastSeen exPolls
    ∧ (pollSteps exSession exPolls).durationMs
          + (pollSteps exSession exPolls).pausedDurationMs
        = exSession.durationMs + exSession.pausedDurationMs
          + ((pollSteps exSession exPolls).lastSeen - exSession.lastSeen)
    ∧ (∀ serverId raw t id, (newSession serverId raw t id).durationMs = 0
        ∧ (newSession serverId raw t id).pausedDurationMs = 0
        ∧ (newSession serverId raw t id).lastSeen = t
        ∧ (newSession serverId raw t id).startedAt = t) :=
  C2_duration_accounting exSession exPolls (by decide)

/-! ## Violation deduplication (claim C3) -/

theorem processCandidate_drop (st : DedupState) (c : Candidate) (now cd : Int)
    (h : hasUnexpired st (keyOf c) now = true) :
    processCandidate st c now cd = (st, none) := by
  simp [processCandidate, h]

theorem processCandidate_accept (st : DedupState) (c : Candidate) (now cd : Int)
    (h : hasUnexpired st (keyOf c) now = false) :
    processCandidate st c now cd =
      ({ cooldowns := (st.cooldowns.filter (fun e => e.key != keyOf c))
            ++ [{ key := keyOf c, expiresAt := now + cd }]
         violations := st.violations ++
            [{ ruleId := c.ruleId, serverUserId := c.serverUserId,
               severity := c.severity, detail := c.detail, createdAt := now }] },
       some { ruleId := c.ruleId, serverUserId := c.serverUserId,
              severity := c.severity, detail := c.detail, createdAt := now }) := by
  simp [processCandidate, h]

/-- C3: a candidate whose dedup key has an unexpired cooldown entry is
dropped — no violation row, no notification; hence the same fingerprint
submitted twice inside the cooldown window persists exactly one
violation, and a third submission after expiry persists a second. -/
theorem C3_dedup_cooldown (st : DedupState) (c : Candidate)
    (now1 now2 now3 cd : Int)
    (h0 : hasUnexpired st (keyOf c) now1 = false)
    (h2 : now2 < now1 + cd) (h3 : now1 + cd ≤ now3) :
    (∀ (st' : DedupState) (c' : Candidate) (now' cd' : Int),
        hasUnexpired st' (keyOf c') now' = true →
        processCandidate st' c' now' cd' = (st', none))
    ∧ (processCandidate st c now1 cd).1.violations
        = st.violations ++
            [{ ruleId := c.ruleId, serverUserId := c.serverUserId,
               severity := c.severity, detail := c.detail, createdAt := now1 }]
    ∧ processCandidate (processCandidate st c now1 cd).1 c now2 cd
        = ((processCandidate st c now1 cd).1, none)
    ∧ (processCandidate (processCandidate st c now1 cd).1 c now3 cd).1.violations
        = st.violations ++
            [{ ruleId := c.ruleId, serverUserId := c.serverUserId,
               severity := c.severity, detail := c.detail, createdAt := now1 },
             { ruleId := c.ruleId, serverUserId := c.serverUserId,
               severity := c.severity, detail := c.detail, createdAt := now3 }] := by
  have hacc := processCandidate_accept st c now1 cd h0
  have hcool : (processCandidate st c now1 cd).1.cooldowns
      = (st.cooldowns.filter (fun e => e.key != keyOf c))
          ++ [{ key := keyOf c, expiresAt := now1 + cd }] := by
    rw [hacc]
  have hun2 : hasUnexpired (processCandidate st c now1 cd).1 (keyOf c) now2 = true := by
    unfold hasUnexpired
    rw [hcool]
    simp [h2]
  have hun3 : hasUnexpired (processCandidate st c now1 cd).1 (keyOf c) now3 = false := by
    unfold hasUnexpired
    rw [hcool]
    simp only [List.any_append, List.any_cons, List.any_nil, Bool.or_eq_false_iff]
    constructor
    · rw [List.any_eq_false]
      intro e he
      have hne := (List.mem_filter.mp he).2
      simp only [bne_iff_ne, ne_eq] at hne
      simp [hne]
    · simp
      omega
  refine ⟨fun st' c' now' cd' h => processCandidate_drop st' c' now' cd' h, ?_, ?_, ?_⟩
  · rw [hacc]
  · exact processCandidate_drop _ c now2 cd hun2
  · rw [processCandidate_accept _ c now3 cd hun3]
    simp only
    rw [hacc]
    simp

/-- C3 witness: the concrete run — accept at `t=0`, drop at `t=5`
inside a 10-tick cooldown, accept again at `t=10`. -/
theorem C3_dedup_cooldown_witness :
    (∀ (st' : DedupState) (c' : Candidate) (now' cd' : Int),
        hasUnexpired st' (keyOf c') now' = true →
        processCandidate st' c' now' cd' = (st', none))
    ∧ (processCandidate ⟨[], []⟩ exCandidate 0 10).1.violations
        = [] ++ [{ ruleId := exCandidate.ruleId,
                   serverUserId := exCandidate.serverUserId,
                   severity := exCandidate.severity, detail := exCandidate.detail,
                   createdAt := 0 }]
    ∧ processCandidate (processCandidate ⟨[], []⟩ exCandidate 0 10).1 exCandidate 5 10
        = ((processCandidate ⟨[], []⟩ exCandidate 0 10).1, none)
    ∧ (processCandidate (processCandidate ⟨[], []⟩ exCandidate 0 10).1
          exCandidate 10 10).1.violations
        = [] ++ [{ ruleId := exCandidate.ruleId,
                   serverUserId := exCandidate.serverUserId,
                   severity := exCandidate.severity, detail := exCandidate.detail,
                   createdAt := 0 },
                 { ruleId := exCandidate.ruleId,
                   serverUserId := exCandidate.serverUserId,
                   severity := exCandidate.severity, detail := exCandidate.detail,
                   createdAt := 10 }] :=
  C3_dedup_cooldown ⟨[], []⟩ exCandidate 0 5 10 10 (by decide) (by decide) (by decide)

/-! ## Plex temp token (claim C10) -/

theorem find?_del_none (redis : List (String × PlexTempData)) (k : String) :
    List.find? (fun e => e.1 == k) (List.filter (fun e => e.1 != k) redis)
      = none := by
  rw [List.find?_eq_none]
  intro e he
  have h2 := (List.mem_filter.mp he).2
  simp only [bne_iff_ne, ne_eq] at h2
  simp [h2]

theorem redisGet_del (redis : List (String × PlexTempData)) (k : String) :
    redisGet (redisDel redis k) k = none := by
  unfold redisGet redisDel
  rw [find?_del_none]
  rfl

theorem plexConnect_unauthorized (st : ApiState) (tok uri name : String)
    (verify : String → String → Option Bool) (enc : String → String)
    (fsid fuid : Nat)
    (h : redisGet st.redis (PLEX_TEMP_TOKEN_PREFIX ++ tok) = none) :
    plexConnect st tok uri name verify enc fsid fuid
      = (ConnectResult.unauthorized, st) := by
  unfold plexConnect
  rw [h]

theorem plexConnect_redis_consumed (st : ApiState) (tok uri name : String)
    (verify : String → String → Option Bool) (enc : String → String)
    (fsid fuid : Nat) :
    redisGet (plexConnect st tok uri name verify enc fsid fuid).2.redis
      (PLEX_TEMP_TOKEN_PREFIX ++ tok) = none := by
  cases h : redisGet st.redis (PLEX_TEMP_TOKEN_PREFIX ++ tok) with
  | none =>
    simp only [plexConnect, h]
  | some d =>
    cases hv : verify d.plexToken uri with
    | none =>
      simp only [plexConnect, h, hv]
      exact redisGet_del _ _
    | some b =>
      cases b with
      | false =>
        simp only [plexConnect, h, hv]
        exact redisGet_del _ _
      | true =>
        simp only [plexConnect, h, hv]
        split
        · exact redisGet_del _ _
        · exact redisGet_del _ _

/-- C10: the Plex temp token is one-time use — a `/plex/connect` request
whose token is absent from Redis returns `unauthorized` and touches no
server or user record; after ANY `/plex/connect` call the token is gone
from Redis (it is deleted before the admin check and before any table
mutation), so a replay of the same token — including after a call that
failed admin verification — is `unauthorized` and mutates nothing; and a
call that fails admin verification consumes the token while leaving the
server and user tables untouched. -/
theorem C10_plex_temp_token_one_time (st : ApiState) (tok uri name : String)
    (verify : String → String → Option Bool) (enc : String → String)
    (fsid fuid : Nat)
    (h : redisGet st.redis (PLEX_TEMP_TOKEN_PREFIX ++ tok) = none) :
    plexConnect st tok uri name verify enc fsid fuid
      = (ConnectResult.unauthorized, st)
    ∧ (∀ (st' : ApiState) uri' name' verify' enc' (a b : Nat),
        redisGet (plexConnect st' tok uri' name' verify' enc' a b).2.redis
          (PLEX_TEMP_TOKEN_PREFIX ++ tok) = none)
    ∧ (∀ (st' : ApiState) uri' name' verify' enc' (a b : Nat)
          uri'' name'' verify'' enc'' (a' b' : Nat),
        plexConnect (plexConnect st' tok uri' name' verify' enc' a b).2 tok
            uri'' name'' verify'' enc'' a' b'
          = (ConnectResult.unauthorized,
             (plexConnect st' tok uri' name' verify' enc' a b).2))
    ∧ (∀ (st' : ApiState) (d : PlexTempData) uri' name' enc' (a b : Nat),
        redisGet st'.redis (PLEX_TEMP_TOKEN_PREFIX ++ tok) = some d →
        plexConnect st' tok uri' name' (fun _ _ => some false) enc' a b
          = (ConnectResult.forbidden,
             { st' with
                redis := redisDel st'.redis (PLEX_TEMP_TOKEN_PREFIX ++ tok) })) := by
  refine ⟨plexConnect_unauthorized st tok uri name verify enc fsid fuid h, ?_, ?_, ?_⟩
  · intro st' uri' name' verify' enc' a b
    exact plexConnect_redis_consumed st' tok uri' name' verify' enc' a b
  · intro st' uri' name' verify' enc' a b uri'' name'' verify'' enc'' a' b'
    exact plexConnect_unauthorized _ tok uri'' name'' verify'' enc'' a' b'
      (plexConnect_redis_consumed st' tok uri' name' verify' enc' a b)
  · intro st' d uri' name' enc' a b hd
    simp only [plexConnect, hd]

/-- C10 witness: the fixture state holds token `"tok1"` but not
`"missing"` — the missing token is rejected without mutation, and all
replay properties hold for it. -/
theorem C10_plex_temp_token_one_time_witness :
    plexConnect exApiState "missing" "u" "n" (fun _ _ => some true) id 10 20
      = (ConnectResult.unauthorized, exApiState)
    ∧ (∀ (st' : ApiState) uri' name' verify' enc' (a b : Nat),
        redisGet (plexConnect st' "missing" uri' name' verify' enc' a b).2.redis
          (PLEX_TEMP_TOKEN_PREFIX ++ "missing") = none)
    ∧ (∀ (st' : ApiState) uri' name' verify' enc' (a b : Nat)
          uri'' name'' verify'' enc'' (a' b' : Nat),
        plexConnect (plexConnect st' "missing" uri' name' verify' enc' a b).2
            "missing" uri'' name'' verify'' enc'' a' b'
          = (ConnectResult.unauthorized,
             (plexConnect st' "missing" uri' name' verify' enc' a b).2))
    ∧ (∀ (st' : ApiState) (d : PlexTempData) uri' name' enc' (a b : Nat),
        redisGet st'.redis (PLEX_TEMP_TOKEN_PREFIX ++ "missing") = some d →
        plexConnect st' "missing" uri' name' (fun _ _ => some false) enc' a b
          = (ConnectResult.forbidden,
             { st' with
                redis := redisDel st'.redis (PLEX_TEMP_TOKEN_PREFIX ++ "missing") })) :=
  C10_plex_temp_token_one_time exApiState "missing" "u" "n" (fun _ _ => some true)
    id 10 20 (by decide)

/-! ## Impossible travel (claim C6) -/

/-- C6: `impossible_travel` emits a single `high` candidate exactly when
the elapsed time reaches the resolution floor and the required average
speed (great-circle distance over elapsed time) exceeds the threshold;
below the floor, or with either geo resolution unavailable, it emits
nothing. -/
theorem C6_impossible_travel (ruleId : Nat) (dist : GeoPoint → GeoPoint → ℚ)
    (thresholdKmh minElapsedMs : ℚ) (userId : Nat) (g1 g2 : GeoPoint)
    (t1 t2 : ℚ) (fp : Fingerprint) :
    (t2 - t1 < minElapsedMs →
      impossibleTravelRule ruleId dist thresholdKmh minElapsedMs userId
        (some g1) t1 (some g2) t2 fp = [])
    ∧ (∀ (pg : Option GeoPoint) (ta : ℚ) (cg : Option GeoPoint) (tb : ℚ),
        pg = none ∨ cg = none →
        impossibleTravelRule ruleId dist thresholdKmh minElapsedMs userId
          pg ta cg tb fp = [])
    ∧ (minElapsedMs ≤ t2 - t1 →
        (thresholdKmh < dist g1 g2 / ((t2 - t1) / 3600000) →
          impossibleTravelRule ruleId dist thresholdKmh minElapsedMs userId
              (some g1) t1 (some g2) t2 fp
            = [{ ruleId := ruleId, serverUserId := userId, fingerprint := fp,
                 severity := .high, detail := "impossible_travel" }])
        ∧ (dist g1 g2 / ((t2 - t1) / 3600000) ≤ thresholdKmh →
          impossibleTravelRule ruleId dist thresholdKmh minElapsedMs userId
            (some g1) t1 (some g2) t2 fp = [])) := by
  refine ⟨?_, ?_, ?_⟩
  · intro h
    simp [impossibleTravelRule, h]
  · rintro pg ta cg tb (rfl | rfl)
    · simp [impossibleTravelRule]
    · cases pg <;> simp [impossibleTravelRule]
  · intro hfloor
    constructor
    · intro hspeed
      simp [impossibleTravelRule, not_lt.mpr hfloor, hspeed]
    · intro hspeed
      simp [impossibleTravelRule, not_lt.mpr hfloor, not_lt.mpr hspeed]

/-- C6 witness: with the default threshold 800 km/h and 2-minute floor,
a distance implying 2000 km/h over 5 minutes (300000 ms) fires a `high`
candidate, and the same distance over 5 hours (18000000 ms) fires
nothing. -/
theorem C6_impossible_travel_witness :
    impossibleTravelRule 2 exDist 800 120000 7 (some ⟨0, 0⟩) 0 (some ⟨1, 1⟩)
        300000 []
      = [{ ruleId := 2, serverUserId := 7, fingerprint := [],
           severity := .high, detail := "impossible_travel" }]
    ∧ impossibleTravelRule 2 exDist 800 120000 7 (some ⟨0, 0⟩) 0 (some ⟨1, 1⟩)
        18000000 [] = [] := by
  constructor
  · exact ((C6_impossible_travel 2 exDist 800 120000 7 ⟨0, 0⟩ ⟨1, 1⟩ 0 300000
      []).2.2 (by norm_num)).1 (by norm_num [exDist])
  · exact ((C6_impossible_travel 2 exDist 800 120000 7 ⟨0, 0⟩ ⟨1, 1⟩ 0 18000000
      []).2.2 (by norm_num)).2 (by norm_num [exDist])

/-! ## Concurrent streams (claim C5) -/

theorem flatten_dedup_const {α : Type} [DecidableEq α] :
    ∀ (L : List (List α)) (c : α), L ≠ [] → (∀ x ∈ L, x = [c]) →
      (L.flatten).dedup = [c]
  | [], c, hne, _ => absurd rfl hne
  | a :: t, c, _, h => by
    have ha : a = [c] := h a (List.mem_cons_self a t)
    subst ha
    cases t with
    | nil => simp
    | cons b t' =>
      have ih := flatten_dedup_const (b :: t') c (by simp)
        (fun x hx => h x (List.mem_cons_of_mem _ hx))
      have hb : b = [c] := h b (by simp)
      have hmem : c ∈ ((b :: t').flatten) := by
        rw [List.mem_flatten]
        exact ⟨b, by simp, by simp [hb]⟩
      rw [List.flatten_cons] at hmem ih
      simp only [List.flatten_cons, List.singleton_append]
      rw [List.dedup_cons_of_mem hmem]
      exact ih

theorem flatten_nil_of_all_nil {α : Type} (L : List (List α))
    (h : ∀ x ∈ L, x = ([] : List α)) : L.flatten = [] := by
  induction L with
  | nil => rfl
  | cons a t ih =>
    have ha : a = [] := h a (List.mem_cons_self a t)
    rw [List.flatten_cons, ha, List.nil_append]
    exact ih (fun x hx => h x (List.mem_cons_of_mem _ hx))

/-- C5: `concurrent_streams` emits one candidate per `started`/`updated`
event exactly when the count of distinct non-grouped open sessions of
the user exceeds the configured maximum — severity `warning` one over
the limit and `high` two or more over; the per-batch merged candidate
list has exactly one entry while the overage persists and is empty once
the count is back at or under the maximum. -/
theorem C5_concurrent_streams (ruleId maxStreams : Nat)
    (sessions : List Session) (u : Nat) (events : List (Event × Nat)) :
    (∀ ev, isStartOrUpdate ev = true → maxStreams < countConcurrent sessions u →
      concurrentStreamsRule ruleId maxStreams sessions ev u
        = [{ ruleId := ruleId, serverUserId := u,
             fingerprint := userPlayKeys sessions u,
             severity := concurrentSeverity (countConcurrent sessions u) maxStreams,
             detail := "concurrent_streams" }])
    ∧ (∀ ev, countConcurrent sessions u ≤ maxStreams →
        concurrentStreamsRule ruleId maxStreams sessions ev u = [])
    ∧ (∀ ev, isStartOrUpdate ev = false →
        concurrentStreamsRule ruleId maxStreams sessions ev u = [])
    ∧ (∀ n, n = maxStreams + 1 → concurrentSeverity n maxStreams = .warning)
    ∧ (∀ n, maxStreams + 2 ≤ n → concurrentSeverity n maxStreams = .high)
    ∧ (events ≠ [] → (∀ e ∈ events, isStartOrUpdate e.1 = true ∧ e.2 = u) →
        maxStreams < countConcurrent sessions u →
        evaluateConcurrentBatch ruleId maxStreams sessions events
          = [{ ruleId := ruleId, serverUserId := u,
               fingerprint := userPlayKeys sessions u,
               severity := concurrentSeverity (countConcurrent sessions u) maxStreams,
               detail := "concurrent_streams" }])
    ∧ ((∀ e ∈ events, e.2 = u) → countConcurrent sessions u ≤ maxStreams →
        evaluateConcurrentBatch ruleId maxStreams sessions events = []) := by
  have hgt : ∀ ev, isStartOrUpdate ev = true →
      maxStreams < countConcurrent sessions u →
      concurrentStreamsRule ruleId maxStreams sessions ev u
        = [{ ruleId := ruleId, serverUserId := u,
             fingerprint := userPlayKeys sessions u,
             severity := concurrentSeverity (countConcurrent sessions u) maxStreams,
             detail := "concurrent_streams" }] := by
    intro ev hev hcount
    simp [concurrentStreamsRule, hev, hcount]
  have hle : ∀ ev, countConcurrent sessions u ≤ maxStreams →
      concurrentStreamsRule ruleId maxStreams sessions ev u = [] := by
    intro ev hcount
    simp [concurrentStreamsRule, not_lt.mpr hcount]
  refine ⟨hgt, hle, ?_, ?_, ?_, ?_, ?_⟩
  · intro ev hev
    simp [concurrentStreamsRule, hev]
  · intro n hn
    subst hn
    simp [concurrentSeverity]
  · intro n hn
    simp [concurrentSeverity, hn]
  · intro hne hall hcount
    unfold evaluateConcurrentBatch
    apply flatten_dedup_const
    · simpa using hne
    · intro x hx
      obtain ⟨e, he, rfl⟩ := List.mem_map.mp hx
      obtain ⟨h1, h2⟩ := hall e he
      rw [h2]
      exact hgt e.1 h1 hcount
  · intro hall hcount
    unfold evaluateConcurrentBatch
    rw [flatten_nil_of_all_nil]
    · rfl
    · intro x hx
      obtain ⟨e, he, rfl⟩ := List.mem_map.mp hx
      rw [hall e he]
      exact hle e.1 hcount

/-- C5 witness: user 1 with 3 simultaneous non-grouped open sessions and
maximum 2 — the merged batch over the three `updated` events contains
exactly one `warning` candidate, and with only two of the sessions open
the batch is empty. -/
theorem C5_concurrent_streams_witness :
    evaluateConcurrentBatch 1 2 exSessions3 exEvents3
      = [{ ruleId := 1, serverUserId := 1,
           fingerprint := userPlayKeys exSessions3 1,
           severity := concurrentSeverity (countConcurrent exSessions3 1) 2,
           detail := "concurrent_streams" }]
    ∧ concurrentSeverity (countConcurrent exSessions3 1) 2 = .warning
    ∧ evaluateConcurrentBatch 1 2 (exSessions3.take 2) exEvents3 = [] := by
  refine ⟨?_, ?_, ?_⟩
  · exact (C5_concurrent_streams 1 2 exSessions3 1 exEvents3).2.2.2.2.2.1
      (by decide) (by decide) (by decide)
  · exact (C5_concurrent_streams 1 2 exSessions3 1 exEvents3).2.2.2.1
      (countConcurrent exSessions3 1) (by decide)
  · exact (C5_concurrent_streams 1 2 (exSessions3.take 2) 1 exEvents3).2.2.2.2.2.2
      (by decide) (by decide)

/-! ## Play counting by reference id (claim C8) -/

theorem coalesce_mem_iff (rest : List DbSessionRow) (x : String)
    (hnoid : ∀ r' ∈ rest, r'.referenceId = none → r'.id ≠ x) :
    x ∈ rest.map coalesceRef ↔ x ∈ rest.filterMap (fun r => r.referenceId) := by
  constructor
  · intro hx
    obtain ⟨r', hr', hco⟩ := List.mem_map.mp hx
    rw [List.mem_filterMap]
    cases hy : r'.referenceId with
    | some y =>
      refine ⟨r', hr', ?_⟩
      rw [hy]
      rw [← hco]
      simp [coalesceRef, hy]
    | none =>
      exfalso
      apply hnoid r' hr' hy
      rw [← hco]
      simp [coalesceRef, hy]
  · intro hx
    obtain ⟨r', hr', hy⟩ := List.mem_filterMap.mp hx
    rw [List.mem_map]
    exact ⟨r', hr', by simp [coalesceRef, hy]⟩

theorem coalesce_count : ∀ (l : List DbSessionRow),
    (l.map (fun r => r.id)).Nodup →
    (∀ a ∈ l, ∀ b ∈ l, b.referenceId ≠ some a.id) →
    ((l.map coalesceRef).dedup).length
      = ((l.filterMap (fun r => r.referenceId)).dedup).length
        + (l.filter (fun r => r.referenceId.isNone)).length
  | [], _, _ => rfl
  | r :: rest, hid, hdisj => by
    have hidTail : (rest.map (fun r => r.id)).Nodup := (List.nodup_cons.mp hid).2
    have hidHead : r.id ∉ rest.map (fun r => r.id) := (List.nodup_cons.mp hid).1
    have hdisjTail : ∀ a ∈ rest, ∀ b ∈ rest, b.referenceId ≠ some a.id :=
      fun a ha b hb => hdisj a (List.mem_cons_of_mem _ ha) b (List.mem_cons_of_mem _ hb)
    have ih := coalesce_count rest hidTail hdisjTail
    cases hr : r.referenceId with
    | some x =>
      have hco : coalesceRef r = x := by simp [coalesceRef, hr]
      have hnoid : ∀ r' ∈ rest, r'.referenceId = none → r'.id ≠ x := by
        intro r' hr' hnone heq
        exact hdisj r' (List.mem_cons_of_mem _ hr') r (List.mem_cons_self _ _)
          (by rw [hr, heq])
      have hiff := coalesce_mem_iff rest x hnoid
      have hmap : (r :: rest).map coalesceRef = x :: rest.map coalesceRef := by
        simp [hco]
      have hfm : (r :: rest).filterMap (fun r => r.referenceId)
          = x :: rest.filterMap (fun r => r.referenceId) := by
        simp [List.filterMap_cons, hr]
      have hfl : (r :: rest).filter (fun r => r.referenceId.isNone)
          = rest.filter (fun r => r.referenceId.isNone) := by
        simp [List.filter_cons, hr]
      rw [hmap, hfm, hfl]
      by_cases hmem : x ∈ rest.map coalesceRef
      · rw [List.dedup_cons_of_mem hmem, List.dedup_cons_of_mem (hiff.mp hmem)]
        exact ih
      · rw [List.dedup_cons_of_not_mem hmem,
          List.dedup_cons_of_not_mem (fun hc => hmem (hiff.mpr hc))]
        simp only [List.length_cons]
        omega
    | none =>
      have hco : coalesceRef r = r.id := by simp [coalesceRef, hr]
      have hmap : (r :: rest).map coalesceRef = r.id :: rest.map coalesceRef := by
        simp [hco]
      have hfm : (r :: rest).filterMap (fun r => r.referenceId)
          = rest.filterMap (fun r => r.referenceId) := by
        simp [List.filterMap_cons, hr]
      have hfl : (r :: rest).filter (fun r => r.referenceId.isNone)
          = r :: rest.filter (fun r => r.referenceId.isNone) := by
        simp [List.filter_cons, hr]
      have hnot : r.id ∉ rest.map coalesceRef := by
        intro hc
        obtain ⟨r', hr', hco'⟩ := List.mem_map.mp hc
        cases hy : r'.referenceId with
        | some y =>
          apply hdisj r (List.mem_cons_self _ _) r' (List.mem_cons_of_mem _ hr')
          rw [hy]
          rw [← hco']
          simp [coalesceRef, hy]
        | none =>
          apply hidHead
          rw [List.mem_map]
          refine ⟨r', hr', ?_⟩
          rw [← hco']
          simp [coalesceRef, hy]
      rw [hmap, hfm, hfl, List.dedup_cons_of_not_mem hnot]
      simp only [List.length_cons]
      omega

/-- C8: the prepared play counts (`count(DISTINCT COALESCE(reference_id,
id))`, globally and per platform) equal the spec's reading — distinct
reference ids among in-window rows that have one, plus one play per
in-window row that has none — whenever row ids are pairwise distinct
(primary key) and no reference id collides with a row id. -/
theorem C8_plays_reference_grouping (rows : List DbSessionRow) (since : Int)
    (hid : (rows.map (fun r => r.id)).Nodup)
    (hdisj : ∀ a ∈ rows, ∀ b ∈ rows, b.referenceId ≠ some a.id) :
    playsCountSince rows since = specPlaysCount rows since
    ∧ ∀ pf, playsByPlatformSince rows since pf = specPlaysByPlatform rows since pf := by
  constructor
  · unfold playsCountSince specPlaysCount
    apply coalesce_count
    · exact List.Nodup.sublist (List.Sublist.map _ (List.filter_sublist rows)) hid
    · intro a ha b hb
      exact hdisj a (List.mem_of_mem_filter ha) b (List.mem_of_mem_filter hb)
  · intro pf
    unfold playsByPlatformSince specPlaysByPlatform
    apply coalesce_count
    · exact List.Nodup.sublist (List.Sublist.map _ (List.filter_sublist rows)) hid
    · intro a ha b hb
      exact hdisj a (List.mem_of_mem_filter ha) b (List.mem_of_mem_filter hb)

/-- C8 witness: on the fixture rows — two sessions sharing reference id
`"r"` and one without — both counts agree with the spec's formula (2
plays in total). -/
theorem C8_plays_reference_grouping_witness :
    (playsCountSince exRows 0 = specPlaysCount exRows 0
      ∧ ∀ pf, playsByPlatformSince exRows 0 pf = specPlaysByPlatform exRows 0 pf)
    ∧ playsCountSince exRows 0 = 2 :=
  ⟨C8_plays_reference_grouping exRows 0 (by decide) (by decide), by decide⟩

/-! ## Open-session invariant (claim C1) -/

theorem keyTriple_updateSession (s : Session) (raw : RawSession) (t : Int) :
    keyTriple (updateSession s raw t) = keyTriple s := rfl

theorem matchKey_triple (sid : Nat) (k : String) (s : Session) :
    matchKey sid k s = matchTriple sid k (keyTriple s) := rfl

theorem vanished_triple (sid : Nat) (keys : List String) (s : Session) :
    vanished sid keys s = vanishedTriple sid keys (keyTriple s) := rfl

theorem matchKey_eq_true_iff (sid : Nat) (k : String) (s : Session) :
    matchKey sid k s = true
      ↔ s.isOpen = true ∧ s.serverId = sid ∧ s.sessionKey = k := by
  simp [matchKey, Bool.and_eq_true, and_assoc]

theorem openDistinct_of_triples {a b a' b' : Session}
    (ha : keyTriple a' = keyTriple a) (hb : keyTriple b' = keyTriple b)
    (h : OpenDistinct a b) : OpenDistinct a' b' := by
  unfold OpenDistinct at h ⊢
  unfold keyTriple at ha hb
  simp only [Prod.mk.injEq] at ha hb
  rintro ⟨h1, h2, h3, h4⟩
  exact h ⟨ha.1 ▸ h1, hb.1 ▸ h2, by rw [← ha.2.1, ← hb.2.1]; exact h3,
    by rw [← ha.2.2, ← hb.2.2]; exact h4⟩

theorem pairwise_map_triple_preserving (l : List Session) (f : Session → Session)
    (htr : ∀ x, keyTriple (f x) = keyTriple x)
    (h : l.Pairwise OpenDistinct) : (l.map f).Pairwise OpenDistinct := by
  rw [List.pairwise_map]
  exact h.imp (fun hab => openDistinct_of_triples (htr _) (htr _) hab)

theorem updIf_triple (sid : Nat) (raw : RawSession) (t : Int) (x : Session) :
    keyTriple (if matchKey sid raw.sessionKey x then updateSession x raw t else x)
      = keyTriple x := by
  by_cases hx : matchKey sid raw.sessionKey x = true <;>
    simp [hx, keyTriple_updateSession]

theorem applyRaw_uniqueOpen (sid : Nat) (t : Int) (acc : EngineState × List Event)
    (raw : RawSession) (h : acc.1.sessions.Pairwise OpenDistinct) :
    (applyRaw sid t acc raw).1.sessions.Pairwise OpenDistinct := by
  obtain ⟨st, evs⟩ := acc
  by_cases hm : st.sessions.any (matchKey sid raw.sessionKey) = true
  · simp only [applyRaw, hm, if_true]
    exact pairwise_map_triple_preserving _ _ (updIf_triple sid raw t) h
  · simp only [applyRaw, hm, if_false, Bool.false_eq_true]
    rw [List.pairwise_append]
    refine ⟨h, List.pairwise_singleton _ _, ?_⟩
    intro a ha b hb
    have hb' : b = newSession sid raw t st.nextId := List.mem_singleton.mp hb
    subst hb'
    rintro ⟨h1, _, h3, h4⟩
    apply hm
    rw [List.any_eq_true]
    refine ⟨a, ha, ?_⟩
    rw [matchKey_eq_true_iff]
    exact ⟨h1, by simpa [newSession] using h3, by simpa [newSession] using h4⟩

theorem foldl_applyRaw_uniqueOpen (sid : Nat) (t : Int) :
    ∀ (raws : List RawSession) (acc : EngineState × List Event),
      acc.1.sessions.Pairwise OpenDistinct →
      ((raws.foldl (applyRaw sid t) acc).1.sessions.Pairwise OpenDistinct)
  | [], _, h => h
  | raw :: rest, acc, h =>
    foldl_applyRaw_uniqueOpen sid t rest (applyRaw sid t acc raw)
      (applyRaw_uniqueOpen sid t acc raw h)

theorem closeSession_open_eq (obs : Int) (keep : Bool) (x : Session)
    (h : (closeSession obs keep x).isOpen = true) : closeSession obs keep x = x := by
  cases keep with
  | true => rfl
  | false => simp [closeSession] at h

theorem closePass_uniqueOpen (obs : Int) (sid : Nat) (keys : List String)
    (l : List Session) (h : l.Pairwise OpenDistinct) :
    (l.map (fun s => closeSession obs (!vanished sid keys s) s)).Pairwise
      OpenDistinct := by
  rw [List.pairwise_map]
  refine h.imp ?_
  intro a b hab
  rintro ⟨h1, h2, h3, h4⟩
  have ea := closeSession_open_eq obs (!vanished sid keys a) a h1
  have eb := closeSession_open_eq obs (!vanished sid keys b) b h2
  rw [ea] at h1 h3 h4
  rw [eb] at h2 h3 h4
  exact hab ⟨h1, h2, h3, h4⟩

theorem reconcile_fst_sessions (st : EngineState) (sid : Nat)
    (raws : List RawSession) (t : Int) :
    (reconcile st sid raws t).1.sessions
      = ((raws.foldl (applyRaw sid t) (st, [])).1.sessions).map
          (fun s => closeSession t (!vanished sid (raws.map (·.sessionKey)) s) s) := rfl

theorem reconcile_fst_nextId (st : EngineState) (sid : Nat)
    (raws : List RawSession) (t : Int) :
    (reconcile st sid raws t).1.nextId
      = (raws.foldl (applyRaw sid t) (st, [])).1.nextId := rfl

theorem reconcile_snd (st : EngineState) (sid : Nat)
    (raws : List RawSession) (t : Int) :
    (reconcile st sid raws t).2
      = (raws.foldl (applyRaw sid t) (st, [])).2
        ++ (((raws.foldl (applyRaw sid t) (st, [])).1.sessions).filter
              (vanished sid (raws.map (·.sessionKey)))).map
            (fun s => Event.stopped s.serverId s.sessionKey) := rfl

theorem reconcile_uniqueOpen (st : EngineState) (sid : Nat)
    (raws : List RawSession) (t : Int) (h : UniqueOpen st) :
    UniqueOpen (reconcile st sid raws t).1 := by
  unfold UniqueOpen
  rw [reconcile_fst_sessions]
  exact closePass_uniqueOpen t sid _ _ (foldl_applyRaw_uniqueOpen sid t raws (st, []) h)

theorem reachable_uniqueOpen (st : EngineState) (h : Reachable st) :
    UniqueOpen st := by
  induction h with
  | init => exact List.Pairwise.nil
  | step st' sid raws obs _ ih => exact reconcile_uniqueOpen st' sid raws obs ih

theorem not_openDistinct_of_matchKey {sid : Nat} {k : String} {a b : Session}
    (ha : matchKey sid k a = true) (hb : matchKey sid k b = true) :
    ¬ OpenDistinct a b := by
  rw [matchKey_eq_true_iff] at ha hb
  intro h
  exact h ⟨ha.1, hb.1, by rw [ha.2.1, hb.2.1], by rw [ha.2.2, hb.2.2]⟩

theorem countP_le_one_of_pairwise :
    ∀ (l : List Session) (sid : Nat) (k : String),
      l.Pairwise OpenDistinct → l.countP (matchKey sid k) ≤ 1
  | [], _, _, _ => by simp
  | a :: l, sid, k, h => by
    obtain ⟨ha, hl⟩ := List.pairwise_cons.mp h
    rw [List.countP_cons]
    by_cases hqa : matchKey sid k a = true
    · have hz : l.countP (matchKey sid k) = 0 := by
        rw [List.countP_eq_zero]
        intro b hb hqb
        exact not_openDistinct_of_matchKey hqa hqb (ha b hb)
      simp [hz, hqa]
    · have := countP_le_one_of_pairwise l sid k hl
      simp only [hqa]
      simpa using this

theorem find?_unique_of_pairwise :
    ∀ (l : List Session) (sid : Nat) (k : String) (s : Session),
      l.Pairwise OpenDistinct → s ∈ l → matchKey sid k s = true →
      l.find? (matchKey sid k) = some s
  | [], _, _, s, _, hs, _ => absurd hs (List.not_mem_nil s)
  | a :: l, sid, k, s, h, hs, hm => by
    obtain ⟨ha, hl⟩ := List.pairwise_cons.mp h
    rcases List.mem_cons.mp hs with rfl | hs'
    · rw [List.find?_cons_of_pos _ hm]
    · by_cases hqa : matchKey sid k a = true
      · exact absurd (ha s hs') (not_openDistinct_of_matchKey hqa hm)
      · rw [List.find?_cons_of_neg _ (by simpa using hqa)]
        exact find?_unique_of_pairwise l sid k s hl hs' hm

/-- C1: every reachable engine state has at most one open session per
`(server id, session key)` pair — reconciliation (and therefore the
started/updated/stopped transitions it performs) preserves the
invariant — so the count of matching open sessions is at most one and
the `sessionByServerAndKey` lookup is unambiguous: it returns exactly
the open session that matches. -/
theorem C1_open_session_unique (st : EngineState) (h : Reachable st) :
    UniqueOpen st
    ∧ (∀ sid k, st.sessions.countP (matchKey sid k) ≤ 1)
    ∧ (∀ sid k (s : Session), s ∈ st.sessions → matchKey sid k s = true →
        st.sessions.find? (matchKey sid k) = some s) := by
  have hu := reachable_uniqueOpen st h
  exact ⟨hu, fun sid k => countP_le_one_of_pairwise _ sid k hu,
    fun sid k s hs hm => find?_unique_of_pairwise _ sid k s hu hs hm⟩

/-- C1 witness: the state reached by reconciling the two example raw
sessions into the empty store satisfies the invariant. -/
theorem C1_open_session_unique_witness :
    UniqueOpen (reconcile initialState 1 [exRawS1, exRawS2] 0).1
    ∧ (∀ sid k,
        (reconcile initialState 1 [exRawS1, exRawS2] 0).1.sessions.countP
          (matchKey sid k) ≤ 1)
    ∧ (∀ sid k (s : Session),
        s ∈ (reconcile initialState 1 [exRawS1, exRawS2] 0).1.sessions →
        matchKey sid k s = true →
        (reconcile initialState 1 [exRawS1, exRawS2] 0).1.sessions.find?
          (matchKey sid k) = some s) :=
  C1_open_session_unique _
    (Reachable.step initialState 1 [exRawS1, exRawS2] 0 Reachable.init)

/-! ## Reconciliation idempotence (claim C7) -/

theorem anyCongr {α : Type} (l : List α) (p q : α → Bool)
    (h : ∀ x ∈ l, p x = q x) : l.any p = l.any q := by
  induction l with
  | nil => rfl
  | cons a t ih =>
    simp only [List.any_cons, h a (List.mem_cons_self a t)]
    rw [ih (fun x hx => h x (List.mem_cons_of_mem _ hx))]

theorem any_matchKey_map (l : List Session) (f : Session → Session)
    (htr : ∀ x, keyTriple (f x) = keyTriple x) (sid : Nat) (k : String) :
    (l.map f).any (matchKey sid k) = l.any (matchKey sid k) := by
  rw [List.any_map]
  exact anyCongr l _ _ (fun x _ => by
    show matchKey sid k (f x) = matchKey sid k x
    rw [matchKey_triple, matchKey_triple, htr])

theorem applyRaw_any_mono (sid : Nat) (t : Int) (acc : EngineState × List Event)
    (raw : RawSession) (sid' : Nat) (k' : String)
    (h : acc.1.sessions.any (matchKey sid' k') = true) :
    (applyRaw sid t acc raw).1.sessions.any (matchKey sid' k') = true := by
  obtain ⟨st, evs⟩ := acc
  by_cases hm : st.sessions.any (matchKey sid raw.sessionKey) = true
  · simp only [applyRaw, hm, if_true]
    rw [any_matchKey_map _ _ (updIf_triple sid raw t)]
    exact h
  · simp only [applyRaw, hm, if_false, Bool.false_eq_true]
    rw [List.any_append]
    simp only [h, Bool.true_or]

theorem applyRaw_key_open (sid : Nat) (t : Int) (acc : EngineState × List Event)
    (raw : RawSession) :
    (applyRaw sid t acc raw).1.sessions.any (matchKey sid raw.sessionKey) = true := by
  obtain ⟨st, evs⟩ := acc
  by_cases hm : st.sessions.any (matchKey sid raw.sessionKey) = true
  · simp only [applyRaw, hm, if_true]
    rw [any_matchKey_map _ _ (updIf_triple sid raw t)]
    exact hm
  · simp only [applyRaw, hm, if_false, Bool.false_eq_true]
    rw [List.any_append]
    have : matchKey sid raw.sessionKey (newSession sid raw t st.nextId) = true := by
      simp [matchKey, newSession]
    simp [this]

theorem foldl_any_mono (sid : Nat) (t : Int) (sid' : Nat) (k' : String) :
    ∀ (raws : List RawSession) (acc : EngineState × List Event),
      acc.1.sessions.any (matchKey sid' k') = true →
      ((raws.foldl (applyRaw sid t) acc).1.sessions.any (matchKey sid' k') = true)
  | [], _, h => h
  | raw :: rest, acc, h =>
    foldl_any_mono sid t sid' k' rest (applyRaw sid t acc raw)
      (applyRaw_any_mono sid t acc raw sid' k' h)

theorem foldl_keys_open (sid : Nat) (t : Int) :
    ∀ (raws : List RawSession) (acc : EngineState × List Event) (r : RawSession),
      r ∈ raws →
      ((raws.foldl (applyRaw sid t) acc).1.sessions.any
        (matchKey sid r.sessionKey) = true)
  | [], _, r, hr => absurd hr (List.not_mem_nil r)
  | raw :: rest, acc, r, hr => by
    rcases List.mem_cons.mp hr with rfl | hr'
    · exact foldl_any_mono sid t sid r.sessionKey rest _
        (applyRaw_key_open sid t acc r)
    · exact foldl_keys_open sid t rest _ r hr'

theorem closePass_any (obs : Int) (sid : Nat) (keys : List String) (k : String)
    (hk : k ∈ keys) (l : List Session) (h : l.any (matchKey sid k) = true) :
    (l.map (fun s => closeSession obs (!vanished sid keys s) s)).any
      (matchKey sid k) = true := by
  obtain ⟨s, hs, hm⟩ := List.any_eq_true.mp h
  rw [List.any_eq_true]
  refine ⟨closeSession obs (!vanished sid keys s) s, List.mem_map_of_mem _ hs, ?_⟩
  have h3 := (matchKey_eq_true_iff sid k s).mp hm
  have hmem : s.sessionKey ∈ keys := by
    rw [h3.2.2]
    exact hk
  have hv : vanished sid keys s = false := by
    simp [vanished, hmem]
  rw [hv]
  exact hm

theorem reconcile_opens (st : EngineState) (sid : Nat) (raws : List RawSession)
    (t : Int) (r : RawSession) (hr : r ∈ raws) :
    (reconcile st sid raws t).1.sessions.any (matchKey sid r.sessionKey) = true := by
  rw [reconcile_fst_sessions]
  exact closePass_any t sid _ r.sessionKey (List.mem_map_of_mem _ hr) _
    (foldl_keys_open sid t raws (st, []) r hr)

theorem reconcile_open_sub (st : EngineState) (sid : Nat) (raws : List RawSession)
    (t : Int) :
    ∀ s ∈ (reconcile st sid raws t).1.sessions, s.isOpen = true →
      s.serverId = sid → s.sessionKey ∈ raws.map (·.sessionKey) := by
  intro s hs ho hsv
  rw [reconcile_fst_sessions] at hs
  obtain ⟨s', hs', he⟩ := List.mem_map.mp hs
  by_cases hv : vanished sid (raws.map (·.sessionKey)) s' = true
  · rw [hv] at he
    rw [← he] at ho
    simp [closeSession] at ho
  · have hv' : vanished sid (raws.map (·.sessionKey)) s' = false :=
      eq_false_of_ne_true hv
    rw [hv'] at he
    have hid : s = s' := by rw [← he]; rfl
    subst hid
    unfold vanished at hv'
    simp only [ho, hsv, beq_self_eq_true, Bool.true_and, Bool.not_eq_false'] at hv'
    exact List.elem_iff.mp hv'

theorem triplesOf_map (l : List Session) (f : Session → Session)
    (htr : ∀ x, keyTriple (f x) = keyTriple x) :
    triplesOf (l.map f) = triplesOf l := by
  unfold triplesOf
  rw [List.map_map]
  exact List.map_congr_left (fun x _ => htr x)

theorem foldl_all_matched (sid : Nat) (t : Int) :
    ∀ (raws : List RawSession) (acc : EngineState × List Event),
      (∀ r ∈ raws, acc.1.sessions.any (matchKey sid r.sessionKey) = true) →
      triplesOf ((raws.foldl (applyRaw sid t) acc).1.sessions)
          = triplesOf acc.1.sessions
      ∧ (raws.foldl (applyRaw sid t) acc).2
          = acc.2 ++ raws.map (fun r => Event.updated sid r.sessionKey)
  | [], acc, _ => ⟨rfl, by simp⟩
  | raw :: rest, acc, h => by
    obtain ⟨st, evs⟩ := acc
    have hm : st.sessions.any (matchKey sid raw.sessionKey) = true :=
      h raw (List.mem_cons_self _ _)
    have hstep : applyRaw sid t (st, evs) raw
        = ({ st with sessions := st.sessions.map (fun s =>
              if matchKey sid raw.sessionKey s then updateSession s raw t else s) },
           evs ++ [Event.updated sid raw.sessionKey]) := by
      simp [applyRaw, hm]
    have htail : ∀ r ∈ rest,
        (applyRaw sid t (st, evs) raw).1.sessions.any
          (matchKey sid r.sessionKey) = true :=
      fun r hr => applyRaw_any_mono sid t (st, evs) raw sid r.sessionKey
        (h r (List.mem_cons_of_mem _ hr))
    have ih := foldl_all_matched sid t rest (applyRaw sid t (st, evs) raw) htail
    rw [List.foldl_cons]
    constructor
    · rw [ih.1, hstep]
      exact triplesOf_map _ _ (updIf_triple sid raw t)
    · rw [ih.2, hstep]
      simp

theorem closePass_id (obs : Int) (sid : Nat) (keys : List String)
    (l : List Session) (h : ∀ s ∈ l, vanished sid keys s = false) :
    l.map (fun s => closeSession obs (!vanished sid keys s) s) = l
    ∧ l.filter (vanished sid keys) = [] := by
  constructor
  · have hpt : ∀ s ∈ l, closeSession obs (!vanished sid keys s) s = s := by
      intro s hs
      rw [h s hs]
      rfl
    rw [List.map_congr_left hpt]
    exact List.map_id l
  · rw [List.filter_eq_nil_iff]
    intro s hs
    simp [h s hs]

theorem vanished_false_of_open_sub (sid : Nat) (keys : List String)
    (l : List Session)
    (hsub : ∀ s ∈ l, s.isOpen = true → s.serverId = sid → s.sessionKey ∈ keys) :
    ∀ s ∈ l, vanished sid keys s = false := by
  intro s hs
  by_cases ho : s.isOpen = true
  · by_cases hsv : s.serverId = sid
    · simp [vanished, hsub s hs ho hsv]
    · simp [vanished, hsv]
  · have ho' : s.isOpen = false := by simpa using ho
    simp [vanished, ho']

theorem vanished_false_of_triples (sid : Nat) (keys : List String)
    (l l' : List Session) (heq : triplesOf l' = triplesOf l)
    (h : ∀ s ∈ l, vanished sid keys s = false) :
    ∀ s ∈ l', vanished sid keys s = false := by
  intro s hs
  have hmem : keyTriple s ∈ triplesOf l' := List.mem_map_of_mem _ hs
  rw [heq] at hmem
  obtain ⟨s0, hs0, he⟩ := List.mem_map.mp hmem
  rw [vanished_triple, ← he, ← vanished_triple]
  exact h s0 hs0

theorem count_updated_map (raws : List RawSession) (sid : Nat) (k : String) :
    (raws.map (fun r => Event.updated sid r.sessionKey)).count
        (Event.updated sid k)
      = (raws.map (·.sessionKey)).count k := by
  induction raws with
  | nil => rfl
  | cons r rest ih =>
    simp only [List.map_cons, List.count_cons, ih]
    congr 1
    by_cases h : r.sessionKey = k
    · simp [h]
    · simp [h]

/-- C7: reconciling the same unchanged raw snapshot a second time emits
exactly the `updated` events — one per raw session, no `started`, no
`stopped` — creates no session rows (same row count, and every row keeps
its `(isOpen, serverId, sessionKey)` identity triple), and after the
first pass there is exactly one open matching session per snapshot key
and none for any other key, so the second pass yields exactly one
`updated` event per open session of this server. -/
theorem C7_reconcile_idempotent (st : EngineState) (sid : Nat)
    (raws : List RawSession) (t1 t2 : Int) (hWF : UniqueOpen st)
    (hnd : (raws.map (·.sessionKey)).Nodup) :
    (reconcile (reconcile st sid raws t1).1 sid raws t2).2
        = raws.map (fun r => Event.updated sid r.sessionKey)
    ∧ triplesOf (reconcile (reconcile st sid raws t1).1 sid raws t2).1.sessions
        = triplesOf (reconcile st sid raws t1).1.sessions
    ∧ (reconcile (reconcile st sid raws t1).1 sid raws t2).1.sessions.length
        = (reconcile st sid raws t1).1.sessions.length
    ∧ (∀ k, (reconcile st sid raws t1).1.sessions.countP (matchKey sid k)
        = if k ∈ raws.map (·.sessionKey) then 1 else 0)
    ∧ (∀ k, (reconcile (reconcile st sid raws t1).1 sid raws t2).2.count
          (Event.updated sid k)
        = if k ∈ raws.map (·.sessionKey) then 1 else 0) := by
  have hopen : ∀ r ∈ raws,
      (reconcile st sid raws t1).1.sessions.any (matchKey sid r.sessionKey) = true :=
    fun r hr => reconcile_opens st sid raws t1 r hr
  have hsub := reconcile_open_sub st sid raws t1
  have hu1 : UniqueOpen (reconcile st sid raws t1).1 :=
    reconcile_uniqueOpen st sid raws t1 hWF
  have hfold := foldl_all_matched sid t2 raws ((reconcile st sid raws t1).1, []) hopen
  have hv1 : ∀ s ∈ (reconcile st sid raws t1).1.sessions,
      vanished sid (raws.map (·.sessionKey)) s = false :=
    vanished_false_of_open_sub sid _ _ hsub
  have hv2 : ∀ s ∈ (raws.foldl (applyRaw sid t2)
        ((reconcile st sid raws t1).1, [])).1.sessions,
      vanished sid (raws.map (·.sessionKey)) s = false :=
    vanished_false_of_triples sid _ _ _ hfold.1 hv1
  have hclose := closePass_id t2 sid (raws.map (·.sessionKey)) _ hv2
  have hevs : (reconcile (reconcile st sid raws t1).1 sid raws t2).2
      = raws.map (fun r => Event.updated sid r.sessionKey) := by
    rw [reconcile_snd, hclose.2, hfold.2]
    simp
  have hsess : (reconcile (reconcile st sid raws t1).1 sid raws t2).1.sessions
      = (raws.foldl (applyRaw sid t2) ((reconcile st sid raws t1).1, [])).1.sessions := by
    rw [reconcile_fst_sessions, hclose.1]
  have htr : triplesOf (reconcile (reconcile st sid raws t1).1 sid raws t2).1.sessions
      = triplesOf (reconcile st sid raws t1).1.sessions := by
    rw [hsess]
    exact hfold.1
  have hcount : ∀ k, (reconcile st sid raws t1).1.sessions.countP (matchKey sid k)
      = if k ∈ raws.map (·.sessionKey) then 1 else 0 := by
    intro k
    by_cases hk : k ∈ raws.map (·.sessionKey)
    · rw [if_pos hk]
      obtain ⟨r, hr, hkey⟩ := List.mem_map.mp hk
      have hany := hopen r hr
      rw [hkey] at hany
      obtain ⟨s, hs, hm⟩ := List.any_eq_true.mp hany
      have hpos : 0 < (reconcile st sid raws t1).1.sessions.countP (matchKey sid k) :=
        List.countP_pos_iff.mpr ⟨s, hs, hm⟩
      have hle := countP_le_one_of_pairwise _ sid k hu1
      omega
    · rw [if_neg hk, List.countP_eq_zero]
      intro s hs hm
      have h3 := (matchKey_eq_true_iff sid k s).mp hm
      exact hk (h3.2.2 ▸ hsub s hs h3.1 h3.2.1)
  refine ⟨hevs, htr, ?_, hcount, ?_⟩
  · have := congrArg List.length htr
    simpa [triplesOf] using this
  · intro k
    rw [hevs, count_updated_map]
    by_cases hk : k ∈ raws.map (·.sessionKey)
    · rw [if_pos hk]
      exact List.count_eq_one_of_mem hnd hk
    · rw [if_neg hk]
      exact List.count_eq_zero_of_not_mem hk

/-- C7 witness: reconciling the two example raw sessions into the empty
store and then reconciling the identical snapshot again satisfies all
the idempotence properties. -/
theorem C7_reconcile_idempotent_witness :
    (reconcile (reconcile initialState 1 [exRawS1, exRawS2] 0).1 1
        [exRawS1, exRawS2] 15).2
        = [exRawS1, exRawS2].map (fun r => Event.updated 1 r.sessionKey)
    ∧ triplesOf (reconcile (reconcile initialState 1 [exRawS1, exRawS2] 0).1 1
          [exRawS1, exRawS2] 15).1.sessions
        = triplesOf (reconcile initialState 1 [exRawS1, exRawS2] 0).1.sessions
    ∧ (reconcile (reconcile initialState 1 [exRawS1, exRawS2] 0).1 1
          [exRawS1, exRawS2] 15).1.sessions.length
        = (reconcile initialState 1 [exRawS1, exRawS2] 0).1.sessions.length
    ∧ (∀ k, (reconcile initialState 1 [exRawS1, exRawS2] 0).1.sessions.countP
          (matchKey 1 k)
        = if k ∈ [exRawS1, exRawS2].map (·.sessionKey) then 1 else 0)
    ∧ (∀ k, (reconcile (reconcile initialState 1 [exRawS1, exRawS2] 0).1 1
            [exRawS1, exRawS2] 15).2.count (Event.updated 1 k)
        = if k ∈ [exRawS1, exRawS2].map (·.sessionKey) then 1 else 0) :=
  C7_reconcile_idempotent initialState 1 [exRawS1, exRawS2] 0 15
    (by decide) (by decide)

end Tracearr
